import Mathlib

/-!
Shallow embedding of the aggregation pipeline of `src/app.py` (a pandas-based
sales dashboard).  Machine floats are modelled by exact rationals, with an
explicit four-way value type (`FVal`) where the code can produce NaN or an
infinity (the Pareto percent columns, which divide by a possibly-zero grand
total).  Missing cells (pandas NaN after coercion) are `Option` fields; pandas
sums skip missing values, which is modelled by `Option.getD 0`.

`sort_values(..., ascending=False)` in pandas (`nargsort`) reverses the
array, argsorts it ascending, and reverses the resulting indexer, which makes
the descending sort stable: ties keep their original relative order.  It is
therefore modelled as a stable descending insertion sort.  `groupby` emits
its group keys in ascending key order (pandas default `sort=True`); string
keys are compared by code points, modelled by `strLe`.
-/

/-- Code-point lexicographic order on character lists; models how pandas
(Python `str` comparison) orders string group keys. -/
def charListLe : List Char → List Char → Bool
  | [], _ => true
  | _ :: _, [] => false
  | c :: a, d :: b =>
    if c.toNat < d.toNat then true
    else if d.toNat < c.toNat then false
    else charListLe a b

/-- Code-point order on strings. -/
def strLe (a b : String) : Bool := charListLe a.data b.data

/-- One transaction row of the loaded table.  Numeric cells are `none` when
pandas coercion marked them missing; `order_date` is a timestamp in whole
seconds (pandas `Timestamp`), `none` for NaT. -/
structure Row where
  category : Option String
  product : Option String
  total_amount : Option ℚ
  profit_margin : Option ℚ
  quantity : Option ℚ
  order_date : Option ℤ
deriving DecidableEq

/-- The `total_amount` contribution of a row to a pandas sum: missing cells
are skipped, i.e. contribute `0`. -/
def amt (r : Row) : ℚ := (r.total_amount).getD 0

/-- `sort_values(by=f, ascending=False)`: a stable descending sort (pandas
`nargsort` reverses, argsorts ascending, and reverses the indexer back, so
ties keep their original relative order). -/
def sortDescBy {α : Type} (f : α → ℚ) (l : List α) : List α :=
  l.insertionSort (fun x y => f y ≤ f x)

/-- An IEEE-float-valued cell: NaN, an infinity, or a finite value (modelled
exactly by a rational). -/
inductive FVal where
  | nan : FVal
  | posinf : FVal
  | neginf : FVal
  | val : ℚ → FVal
deriving DecidableEq

/-- `a / g * 100` under IEEE semantics for finite `a`, `g`:
division by zero yields NaN (0/0) or a signed infinity, and multiplying those
by 100 preserves them.  This is line 174 of `src/app.py`. -/
def fpercent (a g : ℚ) : FVal :=
  if g = 0 then (if a = 0 then FVal.nan else if 0 < a then FVal.posinf else FVal.neginf)
  else FVal.val (a / g * 100)

/-- IEEE addition on `FVal` (finite inputs never produce NaN or infinities,
infinities of opposite sign give NaN). -/
def fadd : FVal → FVal → FVal
  | FVal.nan, _ => FVal.nan
  | _, FVal.nan => FVal.nan
  | FVal.posinf, FVal.neginf => FVal.nan
  | FVal.neginf, FVal.posinf => FVal.nan
  | FVal.posinf, _ => FVal.posinf
  | _, FVal.posinf => FVal.posinf
  | FVal.neginf, _ => FVal.neginf
  | _, FVal.neginf => FVal.neginf
  | FVal.val a, FVal.val b => FVal.val (a + b)

/-- IEEE `≤` on `FVal` cells, as a boolean (NaN compares false). -/
def fle : FVal → FVal → Bool
  | FVal.val a, FVal.val b => decide (a ≤ b)
  | FVal.neginf, FVal.neginf => true
  | FVal.neginf, FVal.posinf => true
  | FVal.neginf, FVal.val _ => true
  | FVal.val _, FVal.posinf => true
  | FVal.posinf, FVal.posinf => true
  | _, _ => false

/-- Sum of a list of `FVal` cells (used to state the percent-column total). -/
def fvalSum (l : List FVal) : FVal := l.foldl fadd (FVal.val 0)

/-- One row of the Category Pareto Table (`pareto` in `src/app.py`). -/
structure ParetoRow where
  category : String
  total_amount : ℚ
  percent : FVal
  cum_percent : FVal
deriving DecidableEq

/-- The distinct non-missing categories, in ascending key order, as emitted
by `df.groupby('category')`. -/
def catKeys (t : List Row) : List String :=
  ((t.filterMap Row.category).dedup).insertionSort (fun a b => strLe a b = true)

/-- Per-category sum of `total_amount` (pandas group sum, missing cells
skipped). -/
def catSum (t : List Row) (c : String) : ℚ :=
  ((t.filter (fun r => decide (r.category = some c))).map amt).sum

/-- The grouped table `df.groupby('category')['total_amount'].sum()`. -/
def catTotals (t : List Row) : List (String × ℚ) :=
  (catKeys t).map (fun c => (c, catSum t c))

/-- The grand total `pareto['total_amount'].sum()` — note it ranges over the
grouped table, so rows with a missing category are excluded. -/
def grandTotal (t : List Row) : ℚ := ((catTotals t).map Prod.snd).sum

/-- The grouped table after `sort_values('total_amount', ascending=False)`. -/
def sortedTotals (t : List Row) : List (String × ℚ) :=
  sortDescBy Prod.snd (catTotals t)

/-- Attach `percent` and `cum_percent` columns: `percent` is the IEEE value of
`total/grand*100`, `cum_percent` its pandas `cumsum` (skipna: a NaN entry
stays NaN and does not update the accumulator). -/
def buildPareto (g : ℚ) : FVal → List (String × ℚ) → List ParetoRow
  | _, [] => []
  | acc, (c, a) :: rest =>
    match fpercent a g with
    | FVal.nan => ⟨c, a, FVal.nan, FVal.nan⟩ :: buildPareto g acc rest
    | p => ⟨c, a, p, fadd acc p⟩ :: buildPareto g (fadd acc p) rest

/-- The Category Pareto Table of `src/app.py` lines 172-175. -/
def paretoTable (t : List Row) : List ParetoRow :=
  buildPareto (grandTotal t) (FVal.val 0) (sortedTotals t)

/-- One row of the per-product rollup (`top_products` before truncation). -/
structure ProdRow where
  product : String
  total_amount : ℚ
  profit_margin : ℚ
  quantity : ℚ
deriving DecidableEq

/-- The distinct non-missing product labels, in ascending key order, as
emitted by `df.groupby(product_label)`. -/
def prodKeys (t : List Row) : List String :=
  ((t.filterMap Row.product).dedup).insertionSort (fun a b => strLe a b = true)

/-- Per-product pandas sum of one numeric column (missing cells skipped). -/
def prodSum (t : List Row) (p : String) (f : Row → Option ℚ) : ℚ :=
  ((t.filter (fun r => decide (r.product = some p))).map (fun r => (f r).getD 0)).sum

/-- The rollup row of one product key. -/
def mkProdRow (t : List Row) (p : String) : ProdRow :=
  ⟨p, prodSum t p Row.total_amount, prodSum t p Row.profit_margin,
    prodSum t p Row.quantity⟩

/-- `df.groupby(product_label)[['total_amount','profit_margin','quantity']].sum()`. -/
def prodRollup (t : List Row) : List ProdRow :=
  (prodKeys t).map (mkProdRow t)

/-- The rollup after `sort_values('total_amount', ascending=False)`. -/
def prodSorted (t : List Row) : List ProdRow :=
  sortDescBy ProdRow.total_amount (prodRollup t)

/-- The Top-Product Table of `src/app.py` lines 186-187: sorted rollup
truncated by `.head(top_n)`.  The slider delivers only positive values, so
the reachable truncation is a plain prefix. -/
def top_products (t : List Row) (n : ℕ) : List ProdRow :=
  (prodSorted t).take n

/-- pandas `DataFrame.head(n)` for an arbitrary integer `n`: it is the slice
`df[:n]`, i.e. the first `n` rows when `n ≥ 0` and all rows except the last
`|n|` when `n < 0` (empty when `|n|` reaches the length). -/
def headSlice {α : Type} (n : ℤ) (l : List α) : List α :=
  if 0 ≤ n then l.take n.toNat else l.take (l.length - (-n).toNat)

/-- The Top-Product Table when the caller forces an arbitrary integer
`top_n` past the slider: `.head` slicing applied to the sorted rollup. -/
def top_products_int (t : List Row) (n : ℤ) : List ProdRow :=
  headSlice n (prodSorted t)

/-- Lower bound of the sidebar `top_n` slider (`src/app.py` line 114). -/
def top_n_min : ℕ := 5

/-- Upper bound of the sidebar `top_n` slider (`src/app.py` line 114). -/
def top_n_max : ℕ := 30

/-- The values the `top_n` slider can deliver to the pipeline. -/
def top_n_valid (v : ℤ) : Prop := (top_n_min : ℤ) ≤ v ∧ v ≤ (top_n_max : ℤ)

/-- Truncation toward zero, as Python `int()` applied to a float. -/
def intTrunc (q : ℚ) : ℤ := if 0 ≤ q then ⌊q⌋ else -⌊-q⌋

/-- `df['total_amount'].sum()` (missing cells skipped). -/
def totalSales (t : List Row) : ℚ := (t.map amt).sum

/-- `df['quantity'].sum()` (missing cells skipped). -/
def totalQty (t : List Row) : ℚ := (t.map (fun r => (r.quantity).getD 0)).sum

/-- `df['profit_margin'].mean()`: the mean of the non-missing values, NaN
(modelled `none`) when there is none. -/
def meanMargin (t : List Row) : Option ℚ :=
  let vs := t.filterMap Row.profit_margin
  if vs.isEmpty then none else some (vs.sum / (vs.length : ℚ))

/-- The KPI Snapshot of `src/app.py` lines 131-135. -/
structure KPI where
  total_sales : ℚ
  avg_profit_margin : Option ℚ
  total_quantity : ℤ
  order_count : ℕ
  avg_order_value : ℚ
deriving DecidableEq

/-- KPI computation: note `avg_order_value` falls back to the number `0`
(not a missing marker) when the row count is zero. -/
def kpi (t : List Row) : KPI :=
  ⟨totalSales t,
   meanMargin t,
   intTrunc (totalQty t),
   t.length,
   if 0 < t.length then totalSales t / (t.length : ℚ) else 0⟩

/-- Category filter (`src/app.py` lines 100-101): an empty selection skips
filtering entirely; rows with a missing category never match a non-empty
selection (`isin` is false on NaN). -/
def categoryFilter (t : List Row) (sel : List String) : List Row :=
  if sel.isEmpty then t
  else t.filter fun r =>
    match r.category with
    | some c => sel.contains c
    | none => false

/-- Date filter (`src/app.py` lines 108-111): keep timestamps between
`start 00:00:00` and `end + 1 day - 1 second`, both inclusive; days are day
numbers, timestamps whole seconds, `86400` seconds per day.  Rows with a
missing date never match. -/
def dateFilter (t : List Row) (startDay endDay : ℤ) : List Row :=
  t.filter fun r =>
    match r.order_date with
    | some ts =>
        decide (startDay * 86400 ≤ ts) && decide (ts ≤ (endDay + 1) * 86400 - 1)
    | none => false

/-- The `W`-frequency bin of a timestamp: weeks ending on Sunday (pandas
`freq='W'` is `W-SUN`); day 0 of the epoch is a Thursday, so day 3 is the
first Sunday and `(day + 3) fdiv 7` numbers the Mon-Sun weeks. -/
def weekIdx (ts : ℤ) : ℤ := ((ts.fdiv 86400) + 3).fdiv 7

/-- Does a row fall in week `w`?  (Rows with a missing date belong to no
week: `Grouper` drops NaT rows.) -/
def inWeek (w : ℤ) (r : Row) : Bool :=
  match r.order_date with
  | some ts => decide (weekIdx ts = w)
  | none => false

/-- Sum of `total_amount` over the rows of week `w`. -/
def weekSum (t : List Row) (w : ℤ) : ℚ := ((t.filter (inWeek w)).map amt).sum

/-- The week bins of the dated rows, in row order. -/
def datedWeeks (t : List Row) : List ℤ := (t.filterMap Row.order_date).map weekIdx

/-- The earliest week bin among the dated rows (`0` for none). -/
def loWeek (t : List Row) : ℤ :=
  match datedWeeks t with
  | [] => 0
  | w :: ws => ws.foldl min w

/-- The latest week bin among the dated rows (`0` for none). -/
def hiWeek (t : List Row) : ℤ :=
  match datedWeeks t with
  | [] => 0
  | w :: ws => ws.foldl max w

/-- `df.groupby(pd.Grouper(key=date_col, freq='W'))['total_amount'].sum()`
(`src/app.py` line 154): pandas generates one bin for every consecutive week
from the earliest to the latest dated row; a bin with no rows sums to `0`. -/
def weeklySeries (t : List Row) : List (ℤ × ℚ) :=
  if datedWeeks t = [] then []
  else
    (List.range (hiWeek t - loWeek t + 1).toNat).map
      fun i : ℕ => (loWeek t + (i : ℤ), weekSum t (loWeek t + (i : ℤ)))

/-- One automated insight (`src/app.py` lines 240-256), keeping the data the
emitted sentence names: the top category with its percent share, or the top
product with its sales total. -/
inductive Insight where
  | cat : String → FVal → Insight
  | prod : String → ℚ → Insight
deriving DecidableEq

/-- The per-product sales totals (only `total_amount`, as used by the product
insight on line 248). -/
def prodAmtPairs (t : List Row) : List (String × ℚ) :=
  (prodKeys t).map fun p => (p, prodSum t p Row.total_amount)

/-- The per-product sales totals sorted descending. -/
def prodAmtSorted (t : List Row) : List (String × ℚ) :=
  sortDescBy Prod.snd (prodAmtPairs t)

/-- Rule 1 (`src/app.py` lines 242-245): name the top Pareto category — but
only if it is truthy, i.e. a non-empty string (`if top_cat:`). -/
def categoryInsight (t : List Row) : List Insight :=
  match paretoTable t with
  | [] => []
  | r :: _ => if r.category = "" then [] else [Insight.cat r.category r.percent]

/-- Rule 2 (`src/app.py` lines 247-250): name the product with the largest
sales total, if any product exists. -/
def productInsight (t : List Row) : List Insight :=
  match prodAmtSorted t with
  | [] => []
  | (p, a) :: _ => [Insight.prod p a]

/-- The insight list: rule 1 fires when the table has a category column,
rule 2 when a product label was resolved (and `total_amount` exists). -/
def insights (t : List Row) (hasCategoryCol hasProductCol : Bool) : List Insight :=
  (if hasCategoryCol then categoryInsight t else []) ++
  (if hasProductCol then productInsight t else [])

/-- Rational-only image of `buildPareto` when the grand total is nonzero:
every percent is finite and the accumulator tracks the running sum. -/
def buildParetoQ (g : ℚ) : ℚ → List (String × ℚ) → List ParetoRow
  | _, [] => []
  | s, (c, a) :: rest =>
    ⟨c, a, FVal.val (a / g * 100), FVal.val (s + a / g * 100)⟩ ::
      buildParetoQ g (s + a / g * 100) rest

/-- The order in which pandas first encounters a list of keys
(`Series.unique`): first occurrences, in row order.  Used to state what
"ties broken by first-encountered product key order" would mean. -/
def firstSeen (l : List String) : List String :=
  l.foldl (fun acc x => if acc.contains x then acc else acc ++ [x]) []

/-- The worked example of the spec: categories A, A, B with amounts
100, 200, 100. -/
def exPos : List Row :=
  [⟨some "A", none, some 100, none, none, none⟩,
   ⟨some "A", none, some 200, none, none, none⟩,
   ⟨some "B", none, some 100, none, none, none⟩]

/-- A table with a negative category total but a nonzero grand total. -/
def exNeg : List Row :=
  [⟨some "A", none, some 200, none, none, none⟩,
   ⟨some "B", none, some (-100), none, none, none⟩]

/-- A table whose category totals are nonzero but cancel to a zero grand
total. -/
def exMixZero : List Row :=
  [⟨some "A", none, some 100, none, none, none⟩,
   ⟨some "B", none, some (-100), none, none, none⟩]

/-- A table whose only category total is zero. -/
def exZero : List Row :=
  [⟨some "A", none, some 0, none, none, none⟩]

/-- Two products with tied sales totals, encountered in the order B, A. -/
def exTie : List Row :=
  [⟨none, some "B", some 7, some 3, some 4, none⟩,
   ⟨none, some "A", some 7, some 1, some 2, none⟩]

/-- A row timestamped 2024-01-01 23:00:00 (day 19723 of the epoch). -/
def rowKept : Row := ⟨none, none, some 1, none, none, some (19723 * 86400 + 82800)⟩

/-- A row timestamped 2024-01-02 00:00:01. -/
def rowLate : Row := ⟨none, none, some 2, none, none, some (19724 * 86400 + 1)⟩

/-- The two-row table of the date-filter example. -/
def exDate : List Row := [rowKept, rowLate]

/-- Two dated rows two calendar weeks apart (week bins 0 and 2), leaving
week 1 with no transactions. -/
def exWeeks : List Row :=
  [⟨none, none, some 5, none, none, some 0⟩,
   ⟨none, none, some 7, none, none, some 1209600⟩]

/-- A table whose only category is the empty string (falsy in Python). -/
def exEmptyCat : List Row :=
  [⟨some "", none, some 100, none, none, none⟩]

/-- A table with one present and one missing `profit_margin`. -/
def exMargin : List Row :=
  [⟨none, none, none, some 4, none, none⟩,
   ⟨none, none, none, none, none, none⟩]

/-! ## General lemmas about the embedded operations -/

theorem charListLe_total : ∀ a b, charListLe a b = true ∨ charListLe b a = true := by
  intro a
  induction a with
  | nil => intro b; left; rfl
  | cons c a ih =>
    intro b
    cases b with
    | nil => right; rfl
    | cons d b =>
      by_cases h1 : c.toNat < d.toNat
      · left; simp [charListLe, h1]
      · by_cases h2 : d.toNat < c.toNat
        · right; simp [charListLe, h1, h2]
        · rcases ih b with h | h
          · left; simp [charListLe, h1, h2, h]
          · right; simp [charListLe, h1, h2, h]

theorem charListLe_trans :
    ∀ a b c, charListLe a b = true → charListLe b c = true → charListLe a c = true := by
  intro a
  induction a with
  | nil => intro b c _ _; rfl
  | cons x a ih =>
    intro b c hab hbc
    cases b with
    | nil => simp [charListLe] at hab
    | cons y b =>
      cases c with
      | nil => simp [charListLe] at hbc
      | cons z c =>
        simp only [charListLe] at hab hbc ⊢
        by_cases hxy1 : x.toNat < y.toNat
        · by_cases hyz1 : y.toNat < z.toNat
          · simp [show x.toNat < z.toNat by omega]
          · by_cases hyz2 : z.toNat < y.toNat
            · simp [hyz1, hyz2] at hbc
            · simp [show x.toNat < z.toNat by omega]
        · by_cases hxy2 : y.toNat < x.toNat
          · simp [hxy1, hxy2] at hab
          · by_cases hyz1 : y.toNat < z.toNat
            · simp [show x.toNat < z.toNat by omega]
            · by_cases hyz2 : z.toNat < y.toNat
              · simp [hyz1, hyz2] at hbc
              · have h3 : ¬ x.toNat < z.toNat := by omega
                have h4 : ¬ z.toNat < x.toNat := by omega
                simp [hxy1, hxy2, hyz1, hyz2, h3, h4] at hab hbc ⊢
                exact ih b c hab hbc

theorem strLe_total (a b : String) : strLe a b = true ∨ strLe b a = true :=
  charListLe_total a.data b.data

theorem strLe_trans {a b c : String} (h1 : strLe a b = true) (h2 : strLe b c = true) :
    strLe a c = true :=
  charListLe_trans a.data b.data c.data h1 h2

theorem sortDescBy_perm {α : Type} (f : α → ℚ) (l : List α) :
    List.Perm (sortDescBy f l) l :=
  List.perm_insertionSort _ l

theorem sortDescBy_mem {α : Type} (f : α → ℚ) {l : List α} {x : α} :
    x ∈ sortDescBy f l ↔ x ∈ l :=
  List.mem_insertionSort _

theorem sortDescBy_pairwise {α : Type} (f : α → ℚ) (l : List α) :
    (sortDescBy f l).Pairwise (fun x y => f y ≤ f x) := by
  haveI : IsTotal α (fun x y => f y ≤ f x) := ⟨fun a b => le_total (f b) (f a)⟩
  haveI : IsTrans α (fun x y => f y ≤ f x) := ⟨fun a b c h1 h2 => le_trans h2 h1⟩
  exact List.sorted_insertionSort _ l

theorem orderedInsert_pairwise_ties {α : Type} (f : α → ℚ) (Q : α → α → Prop) (a : α) :
    ∀ m : List α, m.Pairwise (fun x y => f x = f y → Q x y) →
      (∀ y ∈ m, f a = f y → Q a y) →
      (List.orderedInsert (fun x y => f y ≤ f x) a m).Pairwise
        (fun x y => f x = f y → Q x y) := by
  intro m
  induction m with
  | nil => intro _ _; simp
  | cons b m ih =>
    intro hp ha
    rw [List.orderedInsert]
    by_cases hr : f b ≤ f a
    · rw [if_pos hr]
      exact List.pairwise_cons.mpr ⟨ha, hp⟩
    · rw [if_neg hr]
      have hba : f a < f b := not_le.mp hr
      apply List.pairwise_cons.mpr
      constructor
      · intro y hy
        rcases (List.mem_orderedInsert _).mp hy with rfl | hy'
        · intro he; exact absurd he (ne_of_gt hba)
        · exact (List.pairwise_cons.mp hp).1 y hy'
      · exact ih (List.pairwise_cons.mp hp).2
          (fun y hy hf => ha y (List.mem_cons_of_mem _ hy) hf)

theorem insertionSort_pairwise_ties {α : Type} (f : α → ℚ) (Q : α → α → Prop) :
    ∀ l : List α, l.Pairwise (fun x y => f x = f y → Q x y) →
      (l.insertionSort (fun x y => f y ≤ f x)).Pairwise (fun x y => f x = f y → Q x y)
  | [], _ => by simp
  | a :: l, hp => by
    rw [List.insertionSort]
    apply orderedInsert_pairwise_ties
    · exact insertionSort_pairwise_ties f Q l (List.pairwise_cons.mp hp).2
    · intro y hy hf
      exact (List.pairwise_cons.mp hp).1 y ((List.mem_insertionSort _).mp hy) hf

theorem sortDescBy_pairwise_ties {α : Type} (f : α → ℚ) (Q : α → α → Prop)
    (l : List α) (hp : l.Pairwise (fun x y => f x = f y → Q x y)) :
    (sortDescBy f l).Pairwise (fun x y => f x = f y → Q x y) :=
  insertionSort_pairwise_ties f Q l hp

theorem buildPareto_eq_buildParetoQ (g : ℚ) (hg : g ≠ 0) :
    ∀ (s : ℚ) (l : List (String × ℚ)),
      buildPareto g (FVal.val s) l = buildParetoQ g s l
  | _, [] => rfl
  | s, (c, a) :: rest => by
    have hp : fpercent a g = FVal.val (a / g * 100) := by rw [fpercent, if_neg hg]
    simp only [buildPareto, buildParetoQ, hp, fadd]
    exact congrArg _ (buildPareto_eq_buildParetoQ g hg (s + a / g * 100) rest)

theorem buildParetoQ_map_pair (g : ℚ) :
    ∀ (s : ℚ) (l : List (String × ℚ)),
      (buildParetoQ g s l).map (fun r => (r.category, r.total_amount)) = l
  | _, [] => rfl
  | s, (c, a) :: rest => by
    simp only [buildParetoQ, List.map_cons]
    exact congrArg _ (buildParetoQ_map_pair g (s + a / g * 100) rest)

theorem buildParetoQ_map_ta (g : ℚ) :
    ∀ (s : ℚ) (l : List (String × ℚ)),
      (buildParetoQ g s l).map ParetoRow.total_amount = l.map Prod.snd
  | _, [] => rfl
  | s, (c, a) :: rest => by
    simp only [buildParetoQ, List.map_cons]
    exact congrArg _ (buildParetoQ_map_ta g (s + a / g * 100) rest)

theorem buildParetoQ_map_percent (g : ℚ) :
    ∀ (s : ℚ) (l : List (String × ℚ)),
      (buildParetoQ g s l).map ParetoRow.percent =
        l.map (fun x => FVal.val (x.2 / g * 100))
  | _, [] => rfl
  | s, (c, a) :: rest => by
    simp only [buildParetoQ, List.map_cons]
    exact congrArg _ (buildParetoQ_map_percent g (s + a / g * 100) rest)

theorem buildParetoQ_ne_nil (g s : ℚ) {l : List (String × ℚ)} (h : l ≠ []) :
    buildParetoQ g s l ≠ [] := by
  cases l with
  | nil => exact absurd rfl h
  | cons x rest => cases x; simp [buildParetoQ]

theorem buildParetoQ_getLast (g : ℚ) :
    ∀ (l : List (String × ℚ)) (s : ℚ) (r : ParetoRow),
      (buildParetoQ g s l).getLast? = some r →
      r.cum_percent = FVal.val (s + (l.map (fun x => x.2 / g * 100)).sum)
  | [], s, r => by simp [buildParetoQ]
  | [(c, a)], s, r => by
    intro h
    simp only [buildParetoQ, List.getLast?_singleton, Option.some.injEq] at h
    subst h
    simp
  | (c, a) :: (c2, a2) :: rest, s, r => by
    intro h
    rw [buildParetoQ, buildParetoQ, List.getLast?_cons_cons] at h
    have h2 : (buildParetoQ g (s + a / g * 100) ((c2, a2) :: rest)).getLast? = some r := by
      rw [buildParetoQ]; exact h
    have h3 := buildParetoQ_getLast g ((c2, a2) :: rest) (s + a / g * 100) r h2
    rw [h3]
    simp only [List.map_cons, List.sum_cons]
    congr 1
    ring

theorem buildParetoQ_chain (g : ℚ) (hg : 0 < g) :
    ∀ (l : List (String × ℚ)) (s : ℚ), (∀ x ∈ l, 0 ≤ x.2) →
      List.Chain' (fun x y => fle x.cum_percent y.cum_percent = true) (buildParetoQ g s l)
  | [], _, _ => List.chain'_nil
  | [(c, a)], s, h => by simp [buildParetoQ]
  | (c, a) :: (c2, a2) :: rest, s, h => by
    rw [buildParetoQ]
    have htail := buildParetoQ_chain g hg ((c2, a2) :: rest) (s + a / g * 100)
      (fun x hx => h x (List.mem_cons_of_mem _ hx))
    apply List.chain'_cons'.mpr
    refine ⟨?_, htail⟩
    intro b hb
    rw [buildParetoQ] at hb
    simp only [List.head?_cons, Option.mem_def, Option.some.injEq] at hb
    subst hb
    simp only [fle, decide_eq_true_eq]
    have ha2 : 0 ≤ a2 := h (c2, a2) (by simp)
    have : 0 ≤ a2 / g * 100 := by positivity
    linarith

theorem foldl_fadd_vals :
    ∀ (qs : List ℚ) (s : ℚ), (qs.map FVal.val).foldl fadd (FVal.val s) = FVal.val (s + qs.sum)
  | [], s => by simp
  | q :: qs, s => by
    simp only [List.map_cons, List.foldl_cons, fadd, List.sum_cons]
    rw [foldl_fadd_vals qs (s + q)]
    congr 1
    ring

theorem fvalSum_vals (qs : List ℚ) : fvalSum (qs.map FVal.val) = FVal.val qs.sum := by
  rw [fvalSum, foldl_fadd_vals, zero_add]

theorem sum_map_div_mul (g : ℚ) :
    ∀ qs : List ℚ, (qs.map (fun q => q / g * 100)).sum = qs.sum / g * 100
  | [] => by simp
  | q :: qs => by
    simp only [List.map_cons, List.sum_cons, sum_map_div_mul g qs]
    ring

theorem foldl_min_le : ∀ (ws : List ℤ) (w x : ℤ), x ∈ w :: ws → ws.foldl min w ≤ x := by
  intro ws
  induction ws with
  | nil => intro w x hx; simp at hx; simp [hx]
  | cons y ys ih =>
    intro w x hx
    rw [List.foldl_cons]
    rcases List.mem_cons.mp hx with rfl | hx'
    · exact le_trans (ih (min x y) (min x y) (by simp)) (min_le_left x y)
    · rcases List.mem_cons.mp hx' with rfl | hx''
      · exact le_trans (ih (min w x) (min w x) (by simp)) (min_le_right w x)
      · exact ih (min w y) x (List.mem_cons_of_mem _ hx'')

theorem le_foldl_max : ∀ (ws : List ℤ) (w x : ℤ), x ∈ w :: ws → x ≤ ws.foldl max w := by
  intro ws
  induction ws with
  | nil => intro w x hx; simp at hx; simp [hx]
  | cons y ys ih =>
    intro w x hx
    rw [List.foldl_cons]
    rcases List.mem_cons.mp hx with rfl | hx'
    · exact le_trans (le_max_left x y) (ih (max x y) (max x y) (by simp))
    · rcases List.mem_cons.mp hx' with rfl | hx''
      · exact le_trans (le_max_right w x) (ih (max w x) (max w x) (by simp))
      · exact ih (max w y) x (List.mem_cons_of_mem _ hx'')

theorem length_filterMap_eq_countP {α β : Type} (f : α → Option β) :
    ∀ l : List α, (l.filterMap f).length = l.countP (fun a => (f a).isSome)
  | [] => rfl
  | a :: l => by
    cases hf : f a with
    | none => simp [List.filterMap_cons, List.countP_cons, hf, length_filterMap_eq_countP f l]
    | some b => simp [List.filterMap_cons, List.countP_cons, hf, length_filterMap_eq_countP f l]

/-! ## Evaluation of the example tables -/

theorem exPos_catKeys : catKeys exPos = ["A", "B"] := by decide

theorem exPos_catTotals : catTotals exPos = [("A", 300), ("B", 100)] := by
  rw [catTotals, exPos_catKeys]
  simp [catSum, exPos, amt]
  norm_num

theorem exPos_grandTotal : grandTotal exPos = 400 := by
  rw [grandTotal, exPos_catTotals]
  norm_num

theorem exPos_sortedTotals : sortedTotals exPos = [("A", 300), ("B", 100)] := by
  rw [sortedTotals, sortDescBy, exPos_catTotals]
  norm_num [List.insertionSort, List.orderedInsert]

theorem exPos_pareto : paretoTable exPos =
    [⟨"A", 300, FVal.val 75, FVal.val 75⟩, ⟨"B", 100, FVal.val 25, FVal.val 100⟩] := by
  rw [paretoTable, exPos_grandTotal, exPos_sortedTotals,
    buildPareto_eq_buildParetoQ 400 (by norm_num)]
  norm_num [buildParetoQ]

theorem exNeg_catKeys : catKeys exNeg = ["A", "B"] := by decide

theorem exNeg_catTotals : catTotals exNeg = [("A", 200), ("B", -100)] := by
  rw [catTotals, exNeg_catKeys]
  simp [catSum, exNeg, amt]

theorem exNeg_grandTotal : grandTotal exNeg = 100 := by
  rw [grandTotal, exNeg_catTotals]
  norm_num

theorem exNeg_sortedTotals : sortedTotals exNeg = [("A", 200), ("B", -100)] := by
  rw [sortedTotals, sortDescBy, exNeg_catTotals]
  norm_num [List.insertionSort, List.orderedInsert]

theorem exNeg_pareto : paretoTable exNeg =
    [⟨"A", 200, FVal.val 200, FVal.val 200⟩,
     ⟨"B", -100, FVal.val (-100), FVal.val 100⟩] := by
  rw [paretoTable, exNeg_grandTotal, exNeg_sortedTotals,
    buildPareto_eq_buildParetoQ 100 (by norm_num)]
  norm_num [buildParetoQ]

theorem exMixZero_catTotals : catTotals exMixZero = [("A", 100), ("B", -100)] := by
  rw [catTotals, show catKeys exMixZero = ["A", "B"] by decide]
  simp [catSum, exMixZero, amt]

theorem exMixZero_grandTotal : grandTotal exMixZero = 0 := by
  rw [grandTotal, exMixZero_catTotals]
  norm_num

theorem exMixZero_pareto : paretoTable exMixZero =
    [⟨"A", 100, FVal.posinf, FVal.posinf⟩,
     ⟨"B", -100, FVal.neginf, FVal.nan⟩] := by
  rw [paretoTable, exMixZero_grandTotal,
    show sortedTotals exMixZero = [("A", 100), ("B", -100)] by
      rw [sortedTotals, sortDescBy, exMixZero_catTotals]
      norm_num [List.insertionSort, List.orderedInsert]]
  norm_num [buildPareto, fpercent, fadd]

theorem exZero_catTotals : catTotals exZero = [("A", 0)] := by
  rw [catTotals, show catKeys exZero = ["A"] by decide]
  norm_num [catSum, exZero, amt]

theorem exZero_grandTotal : grandTotal exZero = 0 := by
  rw [grandTotal, exZero_catTotals]
  norm_num

theorem exZero_pareto : paretoTable exZero = [⟨"A", 0, FVal.nan, FVal.nan⟩] := by
  rw [paretoTable, exZero_grandTotal,
    show sortedTotals exZero = [("A", 0)] by
      rw [sortedTotals, sortDescBy, exZero_catTotals]
      norm_num [List.insertionSort, List.orderedInsert]]
  norm_num [buildPareto, fpercent]

theorem exEmptyCat_pareto : paretoTable exEmptyCat =
    [⟨"", 100, FVal.val 100, FVal.val 100⟩] := by
  have hk : catKeys exEmptyCat = [""] := by decide
  have ht : catTotals exEmptyCat = [("", 100)] := by
    rw [catTotals, hk]
    norm_num [catSum, exEmptyCat, amt]
  have hg : grandTotal exEmptyCat = 100 := by
    rw [grandTotal, ht]
    norm_num
  have hs : sortedTotals exEmptyCat = [("", 100)] := by
    rw [sortedTotals, sortDescBy, ht]
    norm_num [List.insertionSort, List.orderedInsert]
  rw [paretoTable, hg, hs, buildPareto_eq_buildParetoQ 100 (by norm_num)]
  norm_num [buildParetoQ]

theorem exTie_rollup : prodRollup exTie = [⟨"A", 7, 1, 2⟩, ⟨"B", 7, 3, 4⟩] := by
  rw [prodRollup, show prodKeys exTie = ["A", "B"] by decide]
  simp [mkProdRow, prodSum, exTie]

theorem exTie_sorted : prodSorted exTie = [⟨"A", 7, 1, 2⟩, ⟨"B", 7, 3, 4⟩] := by
  rw [prodSorted, sortDescBy, exTie_rollup]
  norm_num [List.insertionSort, List.orderedInsert]

theorem exTie_top : top_products exTie 2 = [⟨"A", 7, 1, 2⟩, ⟨"B", 7, 3, 4⟩] := by
  rw [top_products, exTie_sorted]
  rfl

/-! ## The claims -/

/-- C6: applying the category filter with an empty category set returns the
transaction table unchanged — an empty selection is treated as no filter. -/
theorem c6_empty_category_filter_noop (t : List Row) : categoryFilter t [] = t := rfl

/-- C4 counterexample: on the table with zero rows the code computes
`avg_order_value = 0` (the `else 0` branch of line 135), a plain number, not
a missing value as the claim states. -/
theorem c4_avg_order_value_zero : (kpi ([] : List Row)).avg_order_value = 0 := rfl

/-- C4 (amended): the KPI Snapshot of the empty transaction table is
`total_sales = 0`, `avg_profit_margin` missing, `total_quantity = 0`,
`order_count = 0`, and `avg_order_value = 0` (not missing), with no
divide-by-zero. -/
theorem c4_empty_table_kpi : kpi ([] : List Row) = ⟨0, none, 0, 0, 0⟩ := by
  simp [kpi, totalSales, totalQty, meanMargin, intTrunc]

/-- C3 counterexample: a nonpositive `top_n` is never rejected — the
pipeline computes anyway: `top_n = 0` yields the empty table, and
`top_n = -1` even yields a non-empty Top-Product Table (all products but the
last), so no `InvalidParameter` error stops the computation. -/
theorem c3_nonpositive_top_n_computes :
    top_products_int exTie 0 = [] ∧
    top_products_int exTie (-1) = [⟨"A", 7, 1, 2⟩] := by
  constructor
  · rfl
  · rw [top_products_int, headSlice, if_neg (by norm_num), exTie_sorted]
    rfl

/-- C3 (amended): a nonpositive `top_n` cannot be supplied, because the
slider only delivers values in `[5, 30]`; the code has no `InvalidParameter`
rejection — if a nonpositive `top_n` were forced, `.head` would still
compute a table: the empty table at `top_n = 0`, and all rows except the
last `m` at `top_n = -m`. -/
theorem c3_no_rejection_head_slice :
    (∀ v : ℤ, top_n_valid v → 0 < v) ∧
    (∀ t : List Row, top_products_int t 0 = []) ∧
    (∀ (t : List Row) (m : ℕ), 0 < m →
      top_products_int t (-(m : ℤ)) =
        (prodSorted t).take ((prodSorted t).length - m)) := by
  refine ⟨fun _ hv => lt_of_lt_of_le (by norm_num [top_n_min]) hv.1, fun _ => rfl, ?_⟩
  intro t m hm
  have hneg : ¬ (0 : ℤ) ≤ -(m : ℤ) := by omega
  rw [top_products_int, headSlice, if_neg hneg, neg_neg, Int.toNat_natCast]

/-- C3 witness: the slider value 7 is positive, and forcing `top_n = -1` on
the tied two-product table computes all rows but the last. -/
theorem c3_no_rejection_head_slice_w :
    (0 : ℤ) < 7 ∧
    top_products_int exTie (-((1 : ℕ) : ℤ)) =
      (prodSorted exTie).take ((prodSorted exTie).length - 1) :=
  ⟨c3_no_rejection_head_slice.1 7 (by norm_num [top_n_valid, top_n_min, top_n_max]),
   c3_no_rejection_head_slice.2.2 exTie 1 (by norm_num)⟩

/-- C5: the date filter keeps exactly the rows whose timestamp lies in
`[start 00:00:00, end 23:59:59]`, inclusive on both ends (rows with missing
dates are dropped, row order preserved); in particular the one-day interval
on 2024-01-01 keeps the row timestamped 2024-01-01 23:00:00 and drops the
one timestamped 2024-01-02 00:00:01. -/
theorem c5_date_filter_inclusive :
    (∀ (t : List Row) (s e : ℤ) (r : Row),
        r ∈ dateFilter t s e ↔
          r ∈ t ∧ ∃ ts, r.order_date = some ts ∧
            s * 86400 ≤ ts ∧ ts ≤ e * 86400 + 86399) ∧
    (∀ (t : List Row) (s e : ℤ), (dateFilter t s e).Sublist t) ∧
    dateFilter exDate 19723 19723 = [rowKept] := by
  refine ⟨?_, ?_, ?_⟩
  · intro t s e r
    rw [dateFilter, List.mem_filter]
    cases hod : r.order_date with
    | none => simp [hod]
    | some ts =>
      simp only [hod, Bool.and_eq_true, decide_eq_true_eq, Option.some.injEq]
      constructor
      · rintro ⟨hm, h1, h2⟩
        exact ⟨hm, ts, rfl, by omega, by omega⟩
      · rintro ⟨hm, ts2, hts, h1, h2⟩
        cases hts
        exact ⟨hm, by omega, by omega⟩
  · intro t s e
    exact List.filter_sublist t
  · simp [dateFilter, exDate, rowKept, rowLate]

/-- C10: `avg_profit_margin` is missing exactly when every row's
`profit_margin` is missing (even on a non-empty table), and otherwise it is
the mean of the non-missing values only: the value times the count of
non-missing entries equals their sum. -/
theorem c10_avg_profit_margin (t : List Row) :
    ((kpi t).avg_profit_margin = none ↔ ∀ r ∈ t, r.profit_margin = none) ∧
    ∀ q, (kpi t).avg_profit_margin = some q →
      q * (t.countP (fun r => (r.profit_margin).isSome) : ℚ) =
        (t.filterMap Row.profit_margin).sum := by
  have hk : (kpi t).avg_profit_margin = meanMargin t := rfl
  have hnil : meanMargin t = none ↔ t.filterMap Row.profit_margin = [] := by
    rw [meanMargin]
    by_cases h : (t.filterMap Row.profit_margin).isEmpty
    · simp [h, List.isEmpty_iff.mp h]
    · simp only [h, if_false, Bool.false_eq_true]
      constructor
      · intro hc; exact absurd hc (by simp)
      · intro hc; exact absurd (List.isEmpty_iff.mpr hc) h
  constructor
  · rw [hk, hnil, List.filterMap_eq_nil_iff]
  · intro q hq
    rw [hk, meanMargin] at hq
    by_cases h : (t.filterMap Row.profit_margin).isEmpty
    · simp [h] at hq
    · simp only [h, if_false, Bool.false_eq_true, Option.some.injEq] at hq
      have hlen : (t.filterMap Row.profit_margin).length ≠ 0 := by
        intro hc
        exact absurd (List.isEmpty_iff.mpr (List.length_eq_zero.mp hc)) h
      have hlenQ : ((t.filterMap Row.profit_margin).length : ℚ) ≠ 0 := by
        exact_mod_cast hlen
      rw [← hq, ← length_filterMap_eq_countP]
      field_simp

/-- C10 witness: on a table with margins `4` and missing, the average is `4`
and `4` times the single non-missing entry equals the sum `4`. -/
theorem c10_avg_profit_margin_w :
    (4 : ℚ) * ((exMargin.countP (fun r => (r.profit_margin).isSome) : ℕ) : ℚ) =
      (exMargin.filterMap Row.profit_margin).sum :=
  (c10_avg_profit_margin exMargin).2 4 (by
    show meanMargin exMargin = some 4
    simp [meanMargin, exMargin])

theorem buildPareto_zero :
    ∀ (l : List (String × ℚ)) (acc : FVal), (∀ x ∈ l, x.2 = 0) →
      ∀ r ∈ buildPareto 0 acc l, r.percent = FVal.nan ∧ r.cum_percent = FVal.nan
  | [], _, _ => by simp [buildPareto]
  | (c, a) :: rest, acc, hz => by
    have ha : a = 0 := hz (c, a) (by simp)
    have hp : fpercent a 0 = FVal.nan := by simp [fpercent, ha]
    intro r hr
    rw [buildPareto, hp] at hr
    rcases List.mem_cons.mp hr with rfl | hr'
    · exact ⟨rfl, rfl⟩
    · exact buildPareto_zero rest acc
        (fun x hx => hz x (List.mem_cons_of_mem _ hx)) r hr'

/-- C7 counterexample: a table whose category totals are `100` and `-100`
has a zero grand total, yet its percent column is the infinities
`[+inf, -inf]`, not missing values. -/
theorem c7_zero_total_infinite_percent :
    grandTotal exMixZero = 0 ∧
    (paretoTable exMixZero).map ParetoRow.percent = [FVal.posinf, FVal.neginf] := by
  refine ⟨exMixZero_grandTotal, ?_⟩
  rw [exMixZero_pareto]
  rfl

/-- C7 (amended): when every per-category sum is zero (so the grand total is
zero and every division is `0/0`), building the Category Pareto Table raises
nothing and every `percent` and `cum_percent` is missing (NaN). -/
theorem c7_all_zero_sums_missing (t : List Row)
    (hz : ∀ x ∈ catTotals t, x.2 = 0) :
    ∀ r ∈ paretoTable t, r.percent = FVal.nan ∧ r.cum_percent = FVal.nan := by
  have hg : grandTotal t = 0 := by
    rw [grandTotal]
    apply List.sum_eq_zero
    intro x hx
    rcases List.mem_map.mp hx with ⟨p, hp, rfl⟩
    exact hz p hp
  rw [paretoTable, hg]
  exact buildPareto_zero (sortedTotals t) (FVal.val 0)
    (fun x hx => hz x ((sortDescBy_mem _).mp hx))

/-- C7 witness: the one-category table with amount `0` satisfies the
all-zero-sums hypothesis, and its single Pareto row has NaN percent and
cumulative percent. -/
theorem c7_all_zero_sums_missing_w :
    (⟨"A", 0, FVal.nan, FVal.nan⟩ : ParetoRow).percent = FVal.nan ∧
    (⟨"A", 0, FVal.nan, FVal.nan⟩ : ParetoRow).cum_percent = FVal.nan :=
  c7_all_zero_sums_missing exZero
    (by rw [exZero_catTotals]; simp)
    ⟨"A", 0, FVal.nan, FVal.nan⟩
    (by rw [exZero_pareto]; simp)

/-- C9 counterexample: the table whose only category is the empty string has
a non-empty Pareto Table, yet the insight heuristic emits nothing — the
Python truthiness guard `if top_cat:` rejects the empty string. -/
theorem c9_falsy_category_no_insight :
    paretoTable exEmptyCat ≠ [] ∧ insights exEmptyCat true false = [] := by
  constructor
  · rw [exEmptyCat_pareto]
    simp
  · simp [insights, categoryInsight, exEmptyCat_pareto]

/-- C9 (amended): whenever the Pareto Table is non-empty and its top
category is a non-empty string, the insight list starts with the sentence
naming that category and its percent share; and when no categories and no
products exist at all (both tables empty), the insight list is empty — a
value, not an error. -/
theorem c9_insights_spec :
    (∀ (t : List Row) (r : ParetoRow) (rest : List ParetoRow) (hp : Bool),
        paretoTable t = r :: rest → r.category ≠ "" →
        (insights t true hp).head? = some (Insight.cat r.category r.percent)) ∧
    (∀ (t : List Row) (hc hp : Bool),
        t.filterMap Row.category = [] → t.filterMap Row.product = [] →
        insights t hc hp = []) := by
  constructor
  · intro t r rest hp hpar hne
    simp only [insights, if_true]
    rw [categoryInsight, hpar]
    simp [hne]
  · intro t hc hp hcat hprod
    have h1 : categoryInsight t = [] := by
      have hk : catKeys t = [] := by rw [catKeys, hcat]; rfl
      rw [categoryInsight, paretoTable, sortedTotals, catTotals, hk]
      rfl
    have h2 : productInsight t = [] := by
      have hk : prodKeys t = [] := by rw [prodKeys, hprod]; rfl
      rw [productInsight, prodAmtSorted, prodAmtPairs, hk]
      rfl
    rw [insights, h1, h2]
    cases hc <;> cases hp <;> rfl

/-- C9 witness: on the spec's worked example the first insight names
category A with its 75 percent share. -/
theorem c9_insights_spec_w :
    (insights exPos true false).head? = some (Insight.cat "A" (FVal.val 75)) :=
  c9_insights_spec.1 exPos ⟨"A", 300, FVal.val 75, FVal.val 75⟩
    [⟨"B", 100, FVal.val 25, FVal.val 100⟩] false exPos_pareto (by simp)

/-- C8 counterexample: two transactions in week bins 0 and 2 produce a
Weekly Series with a row `(1, 0)` for week 1, which has no transactions —
the series is dense (gap-filled with zeros), not sparse. -/
theorem c8_gap_week_present :
    weeklySeries exWeeks = [(0, 5), (1, 0), (2, 7)] ∧
    exWeeks.filter (inWeek 1) = [] := by
  have e10 : inWeek 0 (⟨none, none, some 5, none, none, some 0⟩ : Row) = true := by decide
  have e20 : inWeek 0 (⟨none, none, some 7, none, none, some 1209600⟩ : Row) = false := by
    decide
  have e11 : inWeek 1 (⟨none, none, some 5, none, none, some 0⟩ : Row) = false := by decide
  have e21 : inWeek 1 (⟨none, none, some 7, none, none, some 1209600⟩ : Row) = false := by
    decide
  have e12 : inWeek 2 (⟨none, none, some 5, none, none, some 0⟩ : Row) = false := by decide
  have e22 : inWeek 2 (⟨none, none, some 7, none, none, some 1209600⟩ : Row) = true := by
    decide
  have hs0 : weekSum exWeeks 0 = 5 := by
    simp [weekSum, exWeeks, List.filter, e10, e20, amt]
  have hs1 : weekSum exWeeks 1 = 0 := by
    simp [weekSum, exWeeks, List.filter, e11, e21]
  have hs2 : weekSum exWeeks 2 = 7 := by
    simp [weekSum, exWeeks, List.filter, e12, e22, amt]
  constructor
  · rw [weeklySeries, if_neg (by decide : ¬ datedWeeks exWeeks = [])]
    rw [show loWeek exWeeks = 0 from by decide, show hiWeek exWeeks = 2 from by decide]
    rw [show ((2 : ℤ) - 0 + 1).toNat = 3 from by decide]
    simp [List.range_succ, hs0, hs1, hs2]
  · simp [exWeeks, List.filter, e11, e21]

/-- C8 (amended): the Weekly Series is the dense week-by-week table: its
keys are exactly the consecutive week bins from the earliest to the latest
dated row, each appearing once, each row carrying that week's sum of
`total_amount` (0 for weeks with no transactions); every week that has a
transaction lies in that span and appears with its sum. -/
theorem c8_weekly_series_dense (t : List Row) (h : datedWeeks t ≠ []) :
    (weeklySeries t).map Prod.fst =
      (List.range (hiWeek t - loWeek t + 1).toNat).map (fun i : ℕ => loWeek t + (i : ℤ)) ∧
    ((weeklySeries t).map Prod.fst).Nodup ∧
    (∀ p ∈ weeklySeries t, p.2 = weekSum t p.1) ∧
    (∀ w ∈ datedWeeks t, loWeek t ≤ w ∧ w ≤ hiWeek t) ∧
    (∀ w ∈ datedWeeks t, (w, weekSum t w) ∈ weeklySeries t) := by
  have hw : weeklySeries t = (List.range (hiWeek t - loWeek t + 1).toNat).map
      (fun i : ℕ => (loWeek t + (i : ℤ), weekSum t (loWeek t + (i : ℤ)))) := by
    rw [weeklySeries, if_neg h]
  have hbounds : ∀ w ∈ datedWeeks t, loWeek t ≤ w ∧ w ≤ hiWeek t := by
    intro w hwmem
    rcases hdw : datedWeeks t with _ | ⟨w0, ws⟩
    · rw [hdw] at hwmem; simp at hwmem
    · rw [hdw] at hwmem
      constructor
      · have : loWeek t = ws.foldl min w0 := by rw [loWeek, hdw]
        rw [this]
        exact foldl_min_le ws w0 w hwmem
      · have : hiWeek t = ws.foldl max w0 := by rw [hiWeek, hdw]
        rw [this]
        exact le_foldl_max ws w0 w hwmem
  refine ⟨?_, ?_, ?_, hbounds, ?_⟩
  · rw [hw, List.map_map]
    rfl
  · rw [hw, List.map_map]
    have hc : (Prod.fst ∘ fun i : ℕ => (loWeek t + (i : ℤ), weekSum t (loWeek t + (i : ℤ))))
        = fun i : ℕ => loWeek t + (i : ℤ) := rfl
    rw [hc]
    apply List.Nodup.map
    · intro a b hab
      have hab2 : loWeek t + (a : ℤ) = loWeek t + (b : ℤ) := hab
      omega
    · exact List.nodup_range _
  · intro p hp
    rw [hw] at hp
    rcases List.mem_map.mp hp with ⟨i, _, rfl⟩
    rfl
  · intro w hwmem
    obtain ⟨hlo, hhi⟩ := hbounds w hwmem
    rw [hw]
    apply List.mem_map.mpr
    refine ⟨(w - loWeek t).toNat, ?_, ?_⟩
    · apply List.mem_range.mpr
      omega
    · have hwe : loWeek t + (((w - loWeek t).toNat : ℕ) : ℤ) = w := by omega
      rw [hwe]

/-- C8 witness: in the two-transaction example, week 0 appears in the series
with its sum. -/
theorem c8_weekly_series_dense_w :
    ((0 : ℤ), weekSum exWeeks 0) ∈ weeklySeries exWeeks :=
  (c8_weekly_series_dense exWeeks (by decide)).2.2.2.2 0 (by decide)

/-- C2 counterexample: the products are first encountered in the order
B, A; their sales totals tie at 7, yet the Top-Product Table lists A before
B — ties follow the ascending groupby key order, not first-encountered
order. -/
theorem c2_tie_order_not_first_encountered :
    firstSeen (exTie.filterMap Row.product) = ["B", "A"] ∧
    (top_products exTie 2).map ProdRow.product = ["A", "B"] := by
  constructor
  · decide
  · rw [exTie_top]
    rfl

/-- C2 (amended): the Top-Product Table with `top_n = k` has at most `k`
rows, is sorted descending by summed `total_amount` with ties in ascending
product-key order (pandas groupby emits keys sorted and the descending sort
is stable), every row carries the per-product sums of the three numeric
columns, and every row appears identically in the untruncated rollup. -/
theorem c2_top_products_spec (t : List Row) (k : ℕ) :
    (top_products t k).length ≤ k ∧
    ((top_products t k).Pairwise fun x y => y.total_amount ≤ x.total_amount) ∧
    ((top_products t k).Pairwise fun x y =>
      x.total_amount = y.total_amount → strLe x.product y.product = true) ∧
    (∀ r ∈ top_products t k, r ∈ prodRollup t) ∧
    (∀ r ∈ top_products t k,
      r.total_amount = prodSum t r.product Row.total_amount ∧
      r.profit_margin = prodSum t r.product Row.profit_margin ∧
      r.quantity = prodSum t r.product Row.quantity) := by
  have htake : List.Sublist (top_products t k) (prodSorted t) :=
    List.take_sublist k (prodSorted t)
  have hrollup : ∀ r ∈ top_products t k, r ∈ prodRollup t := by
    intro r hr
    exact (sortDescBy_mem ProdRow.total_amount).mp (htake.subset hr)
  refine ⟨?_, ?_, ?_, hrollup, ?_⟩
  · rw [top_products, List.length_take]
    exact min_le_left _ _
  · exact (sortDescBy_pairwise ProdRow.total_amount (prodRollup t)).sublist htake
  · haveI : IsTotal String (fun a b => strLe a b = true) := ⟨strLe_total⟩
    haveI : IsTrans String (fun a b => strLe a b = true) := ⟨fun _ _ _ => strLe_trans⟩
    have hkeys : (prodKeys t).Pairwise (fun a b => strLe a b = true) :=
      List.sorted_insertionSort _ _
    have hroll : (prodRollup t).Pairwise
        (fun x y => strLe x.product y.product = true) :=
      hkeys.map (mkProdRow t) (fun a b h => h)
    have hroll2 : (prodRollup t).Pairwise
        (fun x y => x.total_amount = y.total_amount → strLe x.product y.product = true) := by
      refine hroll.imp ?_
      intro a b h _
      exact h
    exact (sortDescBy_pairwise_ties ProdRow.total_amount _ (prodRollup t) hroll2).sublist
      htake
  · intro r hr
    rcases List.mem_map.mp (hrollup r hr) with ⟨p, _, rfl⟩
    exact ⟨rfl, rfl, rfl⟩

/-- C2 witness: on the tied two-product table with `top_n = 2`, the table
has at most two rows and its row for product A appears in the full
rollup. -/
theorem c2_top_products_spec_w :
    (top_products exTie 2).length ≤ 2 ∧
    (⟨"A", 7, 1, 2⟩ : ProdRow) ∈ prodRollup exTie :=
  ⟨(c2_top_products_spec exTie 2).1,
   (c2_top_products_spec exTie 2).2.2.2.1 ⟨"A", 7, 1, 2⟩ (by rw [exTie_top]; simp)⟩

theorem map_snd_div (g : ℚ) (l : List (String × ℚ)) :
    l.map (fun x => x.2 / g * 100) = (l.map Prod.snd).map (fun q => q / g * 100) := by
  rw [List.map_map]
  rfl

theorem map_val_of_div (g : ℚ) (l : List (String × ℚ)) :
    l.map (fun x => FVal.val (x.2 / g * 100)) =
      (l.map (fun x => x.2 / g * 100)).map FVal.val := by
  rw [List.map_map]
  rfl

/-- C1 counterexample: with category totals 200 and -100 the grand total is
100 (nonzero), but `cum_percent` runs 200 then 100 — it is not
non-decreasing, refuting the monotonicity part of the claim. -/
theorem c1_cum_percent_not_monotone :
    grandTotal exNeg ≠ 0 ∧
    ¬ List.Chain' (fun x y => fle x.cum_percent y.cum_percent = true)
      (paretoTable exNeg) := by
  constructor
  · rw [exNeg_grandTotal]
    norm_num
  · rw [exNeg_pareto]
    norm_num [fle, List.chain'_cons]

/-- C1 (amended): for a table with a nonzero grand total whose row amounts
are all nonnegative, the Category Pareto Table is sorted descending by
`total_amount`, its percent column sums to exactly 100, `cum_percent` is
non-decreasing, and the last row's `cum_percent` is exactly 100. -/
theorem c1_pareto_invariants (t : List Row)
    (hg : grandTotal t ≠ 0)
    (hnn : ∀ r ∈ t, 0 ≤ amt r) :
    ((paretoTable t).Pairwise fun x y => y.total_amount ≤ x.total_amount) ∧
    fvalSum ((paretoTable t).map ParetoRow.percent) = FVal.val 100 ∧
    List.Chain' (fun x y => fle x.cum_percent y.cum_percent = true) (paretoTable t) ∧
    ∀ r, (paretoTable t).getLast? = some r → r.cum_percent = FVal.val 100 := by
  have hsnn : ∀ x ∈ catTotals t, 0 ≤ x.2 := by
    intro x hx
    rcases List.mem_map.mp hx with ⟨c, _, rfl⟩
    apply List.sum_nonneg
    intro q hq
    rcases List.mem_map.mp hq with ⟨r, hr, rfl⟩
    exact hnn r (List.mem_filter.mp hr).1
  have hg0 : 0 ≤ grandTotal t := by
    apply List.sum_nonneg
    intro q hq
    rcases List.mem_map.mp hq with ⟨x, hx, rfl⟩
    exact hsnn x hx
  have hgpos : 0 < grandTotal t := lt_of_le_of_ne hg0 (Ne.symm hg)
  have hq : paretoTable t = buildParetoQ (grandTotal t) 0 (sortedTotals t) := by
    rw [paretoTable, buildPareto_eq_buildParetoQ _ hg]
  have hperm : List.Perm (sortedTotals t) (catTotals t) := sortDescBy_perm _ _
  have hsumg : ((sortedTotals t).map Prod.snd).sum = grandTotal t := by
    rw [grandTotal]
    exact (hperm.map Prod.snd).sum_eq
  have hsum100 : ((sortedTotals t).map
      (fun x => x.2 / grandTotal t * 100)).sum = 100 := by
    rw [map_snd_div, sum_map_div_mul, hsumg, div_self hg, one_mul]
  refine ⟨?_, ?_, ?_, ?_⟩
  · have hsorted : (sortedTotals t).Pairwise (fun x y => y.2 ≤ x.2) :=
      sortDescBy_pairwise _ _
    have h1 : ((sortedTotals t).map Prod.snd).Pairwise (fun a b => b ≤ a) :=
      List.pairwise_map.mpr hsorted
    have hmap : (paretoTable t).map ParetoRow.total_amount =
        (sortedTotals t).map Prod.snd := by
      rw [hq]
      exact buildParetoQ_map_ta _ _ _
    rw [← hmap] at h1
    exact List.pairwise_map.mp h1
  · rw [hq, buildParetoQ_map_percent]
    rw [map_val_of_div, fvalSum_vals, hsum100]
  · rw [hq]
    apply buildParetoQ_chain _ hgpos
    intro x hx
    exact hsnn x ((sortDescBy_mem Prod.snd).mp hx)
  · intro r hr
    rw [hq] at hr
    have hlast := buildParetoQ_getLast (grandTotal t) (sortedTotals t) 0 r hr
    rw [hlast, hsum100, zero_add]

/-- C1 witness: on the spec's worked example (A: 300, B: 100) the percent
column sums to exactly 100. -/
theorem c1_pareto_invariants_w :
    fvalSum ((paretoTable exPos).map ParetoRow.percent) = FVal.val 100 := by
  have h1 : grandTotal exPos ≠ 0 := by
    rw [exPos_grandTotal]
    norm_num
  have h2 : ∀ r ∈ exPos, 0 ≤ amt r := by
    intro r hr
    simp only [exPos, List.mem_cons, List.not_mem_nil, or_false] at hr
    rcases hr with rfl | rfl | rfl <;> norm_num [amt]
  exact (c1_pareto_invariants exPos h1 h2).2.1
